import Mathlib

/-!
Verification of the physiological-signal processing engine.

The definitions below are shallow embeddings of the routines in
src/lib/signalWorker.ts (the TypeScript worker) and src/unnamed/part_000
(the JavaScript worker).  Machine floating point is modelled by the real
numbers; JavaScript division by zero producing NaN is modelled by the
Lean convention x / 0 = 0, which agrees with the source on every
comparison the claims exercise (a NaN never satisfies a strict
comparison, and neither does 0 in the places it arises here).
-/

open Real

noncomputable section

/-- Population mean of a sample sequence, as computed by both workers
(sum divided by length). -/
def pmean (l : List ℝ) : ℝ := l.sum / l.length

/-- Population variance, as computed by both workers (mean of squared
deviations from the mean). -/
def pvariance (l : List ℝ) : ℝ :=
  ((l.map (fun v => (v - pmean l) ^ 2)).sum) / l.length

/-- Population standard deviation, square root of the variance. -/
def pstd (l : List ℝ) : ℝ := Real.sqrt (pvariance l)

/-- Embedding of removeOutliers from src/lib/signalWorker.ts: every sample
whose absolute z-score exceeds the threshold is replaced by the mean. -/
def removeOutliers (signal : List ℝ) (threshold : ℝ) : List ℝ :=
  signal.map (fun v =>
    if |(v - pmean signal) / pstd signal| > threshold then pmean signal else v)

/-- Sum of the indices 0..n-1, the sumX accumulator of detrend. -/
def sX (n : ℕ) : ℝ := ∑ i ∈ Finset.range n, (i : ℝ)

/-- Sum of the squared indices, the sumX2 accumulator of detrend. -/
def sX2 (n : ℕ) : ℝ := ∑ i ∈ Finset.range n, (i : ℝ) * (i : ℝ)

/-- Sum of the samples, the sumY accumulator of detrend. -/
def sY (s : List ℝ) : ℝ := ∑ i ∈ Finset.range s.length, s.getD i 0

/-- Sum of index-weighted samples, the sumXY accumulator of detrend. -/
def sXY (s : List ℝ) : ℝ := ∑ i ∈ Finset.range s.length, (i : ℝ) * s.getD i 0

/-- Least-squares slope over the index axis, exactly the closed form used
by detrend in src/lib/signalWorker.ts. -/
def fitSlope (s : List ℝ) : ℝ :=
  ((s.length : ℝ) * sXY s - sX s.length * sY s) /
    ((s.length : ℝ) * sX2 s.length - sX s.length * sX s.length)

/-- Least-squares intercept, exactly the closed form used by detrend. -/
def fitIntercept (s : List ℝ) : ℝ :=
  (sY s - fitSlope s * sX s.length) / (s.length : ℝ)

/-- Embedding of detrend from src/lib/signalWorker.ts: subtract the fitted
line; sequences of fewer than two samples are returned unchanged. -/
def detrend (s : List ℝ) : List ℝ :=
  if s.length < 2 then s
  else (List.range s.length).map
    (fun i => s.getD i 0 - (fitSlope s * (i : ℝ) + fitIntercept s))

/-- Embedding of estimateSNR from src/lib/signalWorker.ts: decibel ratio of
clean power to residual power, with a small epsilon in the denominator and
a floor at zero via max. -/
def estimateSNR (rawSignal cleanedSignal : List ℝ) : ℝ :=
  let noise := (List.range rawSignal.length).map
    (fun i => rawSignal.getD i 0 - cleanedSignal.getD i 0)
  let signalPower := ((cleanedSignal.map (fun b => b * b)).sum) / cleanedSignal.length
  let noisePower := ((noise.map (fun b => b * b)).sum) / noise.length
  max 0 (10 * Real.logb 10 (signalPower / (noisePower + 1 / 10 ^ 10)))

/-- Embedding of calculateSNR from src/unnamed/part_000: decibel power
ratio when the noise power is positive, and 0 otherwise.  Note that no
flooring is applied on the positive branch. -/
def calculateSNRp0 (signal noise : List ℝ) : ℝ :=
  let signalPower := ((signal.map (fun x => x * x)).sum) / signal.length
  let noisePower := ((noise.map (fun x => x * x)).sum) / noise.length
  if noisePower > 0 then 10 * Real.logb 10 (signalPower / noisePower) else 0

/-- Embedding of the validity verdict on line 232 of
src/lib/signalWorker.ts: the conjunction of the three threshold tests on
the unrounded metrics. -/
def validSegment (clippingPct motionScore snr : ℝ) : Prop :=
  clippingPct < 5 ∧ motionScore < 20 ∧ snr > 5

/-- Smallest element of a sample sequence, modelling the JavaScript
spread Math.min over a non-empty array (0 on the empty list, which the
sources never reach on the relevant paths). -/
def listMin : List ℝ → ℝ
  | [] => 0
  | x :: xs => xs.foldl min x

/-- Largest element of a sample sequence, modelling Math.max. -/
def listMax : List ℝ → ℝ
  | [] => 0
  | x :: xs => xs.foldl max x

/-- Embedding of designButterworthFilter from src/lib/signalWorker.ts:
fixed coefficient tables for orders 2 and 4, and a first-order fallback
otherwise.  No validation of the cutoffs is performed anywhere in this
function. -/
def designButterworthFilter (lowCutoff highCutoff samplingRate : ℝ)
    (order : ℕ) : List ℝ × List ℝ :=
  let wn1 := 2 * lowCutoff / samplingRate
  let wn2 := 2 * highCutoff / samplingRate
  if order = 2 then
    ([0.2, 0.4, 0.2], [1.0, -0.8, 0.36])
  else if order = 4 then
    ([0.1, 0.2, 0.3, 0.2, 0.1], [1.0, -1.5, 1.2, -0.5, 0.08])
  else
    let alpha := wn2 - wn1
    ([alpha, alpha] ++ List.replicate (order + 1 - 2) 0,
     [1.0, -(1 - alpha)] ++ List.replicate (order + 1 - 2) 0)

/-- One output sample of the Direct Form II recurrence of applyIIRFilter:
the feedforward sum over the available history minus the feedback sum over
the previously produced outputs, divided by the leading denominator
coefficient. -/
def iirOut (b a signal prev : List ℝ) (i : ℕ) : ℝ :=
  ((∑ j ∈ Finset.range (min b.length (i + 1)), b.getD j 0 * signal.getD (i - j) 0) -
    (∑ j ∈ Finset.Ico 1 (min a.length (i + 1)), a.getD j 0 * prev.getD (i - j) 0)) /
    a.getD 0 0

/-- Prefix of length k of the filtered sequence, built sample by sample
exactly as the loop in applyIIRFilter fills the output array. -/
def iirAux (b a signal : List ℝ) : ℕ → List ℝ
  | 0 => []
  | i + 1 =>
    let prev := iirAux b a signal i
    prev ++ [iirOut b a signal prev i]

/-- Embedding of applyIIRFilter from src/lib/signalWorker.ts. -/
def applyIIRFilter (signal b a : List ℝ) : List ℝ :=
  iirAux b a signal signal.length

/-- Min-max normalization into the 0..255 display range performed at the
end of processSignal in src/lib/signalWorker.ts; a zero peak-to-peak range
is replaced by 1. -/
def normalize255 (l : List ℝ) : List ℝ :=
  let mn := listMin l
  let mx := listMax l
  let range := if mx - mn = 0 then 1 else mx - mn
  l.map (fun v => (v - mn) / range * 255)

/-- Embedding of detectClipping from src/lib/signalWorker.ts: percentage
of samples within the extreme bands of the observed range. -/
def detectClipping (signal : List ℝ) (threshold : ℝ) : ℝ :=
  let mn := listMin signal
  let mx := listMax signal
  let range := mx - mn
  let clippedCount := signal.countP (fun v =>
    decide (v ≤ mn + range * (1 - threshold) ∨ mx - range * (1 - threshold) ≤ v))
  ((clippedCount : ℝ) / signal.length) * 100

/-- Embedding of assessMotionArtifacts from src/lib/signalWorker.ts:
percentage of consecutive differences exceeding an adaptive threshold. -/
def assessMotionArtifacts (signal : List ℝ) : ℝ :=
  if signal.length < 3 then 0
  else
    let threshold := 2 * (listMax signal - listMin signal) / signal.length
    let abruptChanges := ((Finset.Ico 1 signal.length).filter
      (fun i => |signal.getD i 0 - signal.getD (i - 1) 0| > threshold)).card
    ((abruptChanges : ℝ) / signal.length) * 100

/-- Rounding to one decimal place, modelling Math.round(x * 10) / 10. -/
def round1 (x : ℝ) : ℝ := ((⌊x * 10 + 1 / 2⌋ : ℤ) : ℝ) / 10

/-- Result bundle returned by processSignal in src/lib/signalWorker.ts. -/
structure SWResult where
  cleanedSignal : List ℝ
  snr : ℝ
  clippingPercentage : ℝ
  motionArtifactScore : ℝ
  validSegment : Prop

/-- Embedding of processSignal from src/lib/signalWorker.ts: detrend,
remove outliers, design and apply the bandpass filter once, normalize to
the display range, then compute the quality metrics from the raw and
cleaned sequences. -/
def processSignal (rawSignal : List ℝ)
    (samplingRate bandpassLow bandpassHigh : ℝ) (filterOrder : ℕ) : SWResult :=
  let signal1 := detrend rawSignal
  let signal2 := removeOutliers signal1 3
  let ba := designButterworthFilter bandpassLow bandpassHigh samplingRate filterOrder
  let cleaned := normalize255 (applyIIRFilter signal2 ba.1 ba.2)
  let snrValue := estimateSNR rawSignal cleaned
  let clipValue := detectClipping rawSignal 0.98
  let motionValue := assessMotionArtifacts rawSignal
  { cleanedSignal := cleaned
    snr := round1 snrValue
    clippingPercentage := round1 clipValue
    motionArtifactScore := round1 motionValue
    validSegment := validSegment clipValue motionValue snrValue }

/-- Variant of processSignal following the words of the claim under
examination: identical pipeline, except that the designed bandpass filter
is applied in two successive passes (the same design cascaded twice)
before normalization and quality assessment.  Used only to compare the
claimed behaviour against the embedded source. -/
def processSignalTwoPass (rawSignal : List ℝ)
    (samplingRate bandpassLow bandpassHigh : ℝ) (filterOrder : ℕ) : SWResult :=
  let signal1 := detrend rawSignal
  let signal2 := removeOutliers signal1 3
  let ba := designButterworthFilter bandpassLow bandpassHigh samplingRate filterOrder
  let cleaned := normalize255
    (applyIIRFilter (applyIIRFilter signal2 ba.1 ba.2) ba.1 ba.2)
  let snrValue := estimateSNR rawSignal cleaned
  let clipValue := detectClipping rawSignal 0.98
  let motionValue := assessMotionArtifacts rawSignal
  { cleanedSignal := cleaned
    snr := round1 snrValue
    clippingPercentage := round1 clipValue
    motionArtifactScore := round1 motionValue
    validSegment := validSegment clipValue motionValue snrValue }

/-- Doubling loop of computeFFT in src/lib/signalWorker.ts: starting from
N, double until the target length n is reached.  The source starts the
loop at N = 1; the positivity guard only excludes the start value 0, on
which the source loop would not terminate. -/
def growPow2 (n N : ℕ) : ℕ :=
  if h : 0 < N ∧ N < n then growPow2 n (2 * N) else N
termination_by n - N
decreasing_by omega

/-- Magnitude of frequency bin k of an N-point direct discrete Fourier
transform, the common summation formula of computeFFT in
src/lib/signalWorker.ts and naiveFFT in src/unnamed/part_000 (samples
beyond the end of the list are the zero padding). -/
def dftMag (s : List ℝ) (N k : ℕ) : ℝ :=
  let re := ∑ t ∈ Finset.range N,
    s.getD t 0 * Real.cos (-2 * π * (k : ℝ) * (t : ℝ) / (N : ℝ))
  let im := ∑ t ∈ Finset.range N,
    s.getD t 0 * Real.sin (-2 * π * (k : ℝ) * (t : ℝ) / (N : ℝ))
  Real.sqrt (re * re + im * im) / (N : ℝ)

/-- Embedding of computeFFT from src/lib/signalWorker.ts: pad to the next
power of two N, then produce the magnitudes of the first N / 2 bins.  When
N / 2 is not an integer (N = 1, reached for inputs of length 0 or 1) the
source throws a RangeError while allocating the output array, modelled
here as none. -/
def computeFFT (signal : List ℝ) : Option (List ℝ) :=
  let N := growPow2 signal.length 1
  if N % 2 = 0 then some ((List.range (N / 2)).map (dftMag signal N)) else none

/-- Samples at even positions, the filter on index parity used by the
recursive computeFFT in src/unnamed/part_000. -/
def evens (l : List ℝ) : List ℝ :=
  (List.range ((l.length + 1) / 2)).map (fun i => l.getD (2 * i) 0)

/-- Samples at odd positions. -/
def odds (l : List ℝ) : List ℝ :=
  (List.range (l.length / 2)).map (fun i => l.getD (2 * i + 1) 0)

/-- Embedding of naiveFFT from src/unnamed/part_000: the direct
quadratic-time transform returning one normalized magnitude per bin. -/
def naiveFFT (signal : List ℝ) : List ℝ :=
  (List.range signal.length).map (dftMag signal signal.length)

/-- Embedding of the recursive computeFFT from src/unnamed/part_000:
radix-2 decimation on even lengths with a real-valued butterfly (the
imaginary contribution is multiplied by zero in the source), the direct
transform on odd lengths, and the base case returning the single raw
sample.  The source recursion never reaches an empty list from a
non-empty input; the base case also covers it. -/
def computeFFTp0 (signal : List ℝ) : List ℝ :=
  if h1 : signal.length ≤ 1 then signal
  else if h2 : signal.length % 2 ≠ 0 then naiveFFT signal
  else
    let e := computeFFTp0 (evens signal)
    let o := computeFFTp0 (odds signal)
    let n := signal.length
    (List.range n).map (fun i =>
      if i < n / 2 then
        e.getD i 0 +
          (Real.cos (-2 * π * (i : ℝ) / (n : ℝ)) * o.getD i 0 -
            Real.sin (-2 * π * (i : ℝ) / (n : ℝ)) * 0)
      else
        e.getD (i - n / 2) 0 -
          (Real.cos (-2 * π * ((i - n / 2 : ℕ) : ℝ) / (n : ℝ)) * o.getD (i - n / 2) 0 -
            Real.sin (-2 * π * ((i - n / 2 : ℕ) : ℝ) / (n : ℝ)) * 0))
termination_by signal.length
decreasing_by
  · simp only [evens, List.length_map, List.length_range]
    omega
  · simp only [odds, List.length_map, List.length_range]
    omega

/-- Embedding of ButterworthFilter.computeCoefficients from
src/unnamed/part_000: normalize the cutoffs against Nyquist, reject an
out-of-range or misordered specification, and otherwise produce the
tangent-based order-2 coefficient pair.  none models the thrown
invalid-filter-frequencies error. -/
def computeCoefficientsP0 (samplingRate lowCutoff highCutoff : ℝ) :
    Option (List ℝ × List ℝ) :=
  let low := lowCutoff / (samplingRate / 2)
  let high := highCutoff / (samplingRate / 2)
  if low ≤ 0 ∨ 1 ≤ high ∨ high ≤ low then none
  else
    let a := Real.tan (π * (high - low) / 2)
    some ([a, 0, -a], [1, -2 * (1 - a) / (1 + a), (1 - a) / (1 + a)])

/-- Filter state of one ButterworthFilter instance from
src/unnamed/part_000: the two retained inputs and the two retained
outputs, freshly zeroed at construction. -/
def bfInit : ℝ × ℝ × ℝ × ℝ := (0, 0, 0, 0)

/-- One step of the stateful filter method of ButterworthFilter: produce
one output from the current input and the retained state, then shift the
state. -/
def bfStep (b a : List ℝ) (st : ℝ × ℝ × ℝ × ℝ) (x : ℝ) : ℝ × (ℝ × ℝ × ℝ × ℝ) :=
  let out :=
    (b.getD 0 0 * x + b.getD 1 0 * st.1 + b.getD 2 0 * st.2.1) / a.getD 0 0 -
      (a.getD 1 0 * st.2.2.1 + a.getD 2 0 * st.2.2.2) / a.getD 0 0
  (out, (x, st.1, out, st.2.2.1))

/-- Stateful map of the filter over a sequence, as the source's
Array.prototype.map over the closure around one filter instance. -/
def bfilterAll (b a : List ℝ) : List ℝ → (ℝ × ℝ × ℝ × ℝ) → List ℝ
  | [], _ => []
  | x :: xs, st =>
    let step := bfStep b a st x
    step.1 :: bfilterAll b a xs step.2

/-- Embedding of the detrending prelude of processSignal in
src/unnamed/part_000: remove the mean, then remove the slope of a line
fitted around the centre index n / 2 whenever the index spread is
non-degenerate. -/
def detrendP0 (rawSignal : List ℝ) : List ℝ :=
  let n := rawSignal.length
  let mean := rawSignal.sum / (n : ℝ)
  let d0 := rawSignal.map (fun x => x - mean)
  let num := ∑ i ∈ Finset.range n, ((i : ℝ) - (n : ℝ) / 2) * d0.getD i 0
  let den := ∑ i ∈ Finset.range n, ((i : ℝ) - (n : ℝ) / 2) ^ 2
  if den ≠ 0 then
    (List.range n).map (fun i => d0.getD i 0 - num / den * ((i : ℝ) - (n : ℝ) / 2))
  else d0

/-- Clip-to-mean outlier pass of processSignal in src/unnamed/part_000:
samples more than three standard deviations from the mean are replaced by
the mean. -/
def clipToMeanP0 (l : List ℝ) : List ℝ :=
  l.map (fun x => if |x - pmean l| > 3 * pstd l then pmean l else x)

/-- Embedding of calculateClipping from src/unnamed/part_000: percentage
of samples at or above 95 percent of the maximum. -/
def calculateClippingP0 (signal : List ℝ) : ℝ :=
  let threshold := listMax signal * 0.95
  ((signal.countP (fun x => decide (threshold ≤ x)) : ℝ) / signal.length) * 100

/-- Embedding of calculateMotionArtifacts from src/unnamed/part_000:
population standard deviation of the absolute first differences. -/
def calculateMotionP0 (signal : List ℝ) : ℝ :=
  let diffs := (List.range (signal.length - 1)).map
    (fun i => |signal.getD (i + 1) 0 - signal.getD i 0|)
  pstd diffs

/-- Embedding of isValidSegment from src/unnamed/part_000: more than half
of the samples deviate from the mean by more than a tenth of the given
standard deviation. -/
def isValidSegmentP0 (signal : List ℝ) (std : ℝ) : Prop :=
  ((signal.countP (fun x => decide (|x - pmean signal| > 0.1 * std)) : ℝ)) >
    (signal.length : ℝ) * 0.5

/-- Result bundle of processSignal in src/unnamed/part_000. -/
structure P0Result where
  raw : List ℝ
  bandpass : List ℝ
  butterworth : List ℝ
  snr : ℝ
  clippingPercentage : ℝ
  motionArtifactScore : ℝ
  validSegment : Prop

/-- Embedding of processSignal from src/unnamed/part_000: detrend, run two
fresh instances of the same filter design in cascade, clip outliers to the
mean, then assemble the quality metrics.  A rejected filter specification
aborts the whole call (none models the wrapped signal-processing-failed
error). -/
def processSignalP0 (rawSignal : List ℝ)
    (samplingRate bandpassLow bandpassHigh : ℝ) (filterOrder : ℕ) :
    Option P0Result :=
  match computeCoefficientsP0 samplingRate bandpassLow bandpassHigh with
  | none => none
  | some ba =>
    let detrended := detrendP0 rawSignal
    let bandpassFiltered := bfilterAll ba.1 ba.2 detrended bfInit
    let butterworthFiltered := bfilterAll ba.1 ba.2 bandpassFiltered bfInit
    let cleanedNoOutliers := clipToMeanP0 butterworthFiltered
    some
      { raw := rawSignal
        bandpass := bandpassFiltered
        butterworth := cleanedNoOutliers
        snr := calculateSNRp0 cleanedNoOutliers detrended
        clippingPercentage := calculateClippingP0 rawSignal
        motionArtifactScore := calculateMotionP0 butterworthFiltered
        validSegment := isValidSegmentP0 butterworthFiltered (pstd butterworthFiltered) }

end

/-! Helper lemmas shared by the claim theorems. -/

lemma pmean_c1 : pmean [0, 0, 0, 0, 100] = 20 := by
  simp [pmean]
  norm_num

lemma pstd_c1 : pstd [0, 0, 0, 0, 100] = 40 := by
  have hv : pvariance [0, 0, 0, 0, 100] = 1600 := by
    simp [pvariance, pmean_c1]
    norm_num
  rw [pstd, hv, show (1600 : ℝ) = 40 ^ 2 by norm_num, Real.sqrt_sq (by norm_num)]

lemma list_sum_nonneg_all_zero :
    ∀ (l : List ℝ), (∀ x ∈ l, 0 ≤ x) → l.sum = 0 → ∀ x ∈ l, x = 0 := by
  intro l
  induction l with
  | nil => simp
  | cons a l ih =>
    intro hpos hsum x hx
    have ha : 0 ≤ a := hpos a (by simp)
    have hl : 0 ≤ l.sum := List.sum_nonneg (fun y hy => hpos y (by simp [hy]))
    have hsum2 : a + l.sum = 0 := by simpa using hsum
    have ha0 : a = 0 := by linarith
    have hl0 : l.sum = 0 := by linarith
    rcases List.mem_cons.1 hx with rfl | hx
    · exact ha0
    · exact ih (fun y hy => hpos y (by simp [hy])) hl0 x hx

lemma pstd_zero_all_mean (s : List ℝ) (h1 : s ≠ []) (h2 : pstd s = 0) :
    ∀ v ∈ s, v = pmean s := by
  intro v hv
  have hlen : (0 : ℝ) < s.length := by
    have : s.length ≠ 0 := by simpa [List.length_eq_zero] using h1
    positivity
  have hvar0 : pvariance s = 0 := by
    have hnonneg : 0 ≤ pvariance s := by
      have : 0 ≤ (s.map (fun v => (v - pmean s) ^ 2)).sum :=
        List.sum_nonneg (by
          intro x hx
          rcases List.mem_map.1 hx with ⟨y, _, rfl⟩
          positivity)
      exact div_nonneg this (by positivity)
    have hle : pvariance s ≤ 0 := Real.sqrt_eq_zero'.1 h2
    linarith
  have hsum0 : (s.map (fun v => (v - pmean s) ^ 2)).sum = 0 := by
    have := hvar0
    rw [pvariance, div_eq_zero_iff] at this
    rcases this with h | h
    · exact h
    · exact absurd h (by positivity)
  have hsq : (v - pmean s) ^ 2 = 0 := by
    refine list_sum_nonneg_all_zero _ ?_ hsum0 _ (List.mem_map_of_mem _ hv)
    intro x hx
    rcases List.mem_map.1 hx with ⟨y, _, rfl⟩
    positivity
  have := pow_eq_zero_iff (n := 2) (by norm_num) |>.1 hsq
  linarith [sub_eq_zero.1 this]

/-! Claim theorems. -/

/-- Claim C1, counterexample: for the input sequence 0,0,0,0,100 with
threshold 3.0, the last output sample of removeOutliers is not the
pre-suppression mean of the input (the absolute z-score of 100 is only 2,
so the sample is kept, contrary to the claim that it is replaced). -/
theorem removeOutliers_spec_example_refuted :
    (removeOutliers [0, 0, 0, 0, 100] 3).getD 4 0 ≠
      ([0, 0, 0, 0, 100] : List ℝ).sum / 5 := by
  have : removeOutliers [0, 0, 0, 0, 100] 3 = [0, 0, 0, 0, 100] := by
    simp only [removeOutliers, pmean_c1, pstd_c1, List.map]
    norm_num [abs_le]
  rw [this]
  norm_num

/-- Claim C1, amended: for the input sequence 0,0,0,0,100 with threshold
3.0 no sample exceeds the z-score threshold (the deviant sample has
absolute z-score 2), so removeOutliers returns the input unchanged; the
output length still equals the input length, 5 in and 5 out. -/
theorem removeOutliers_spec_example_amended :
    removeOutliers [0, 0, 0, 0, 100] 3 = [0, 0, 0, 0, 100] ∧
      (removeOutliers [0, 0, 0, 0, 100] 3).length = 5 := by
  have h : removeOutliers [0, 0, 0, 0, 100] 3 = [0, 0, 0, 0, 100] := by
    simp only [removeOutliers, pmean_c1, pstd_c1, List.map]
    norm_num [abs_le]
  exact ⟨h, by rw [h]; rfl⟩

/-- Claim C3, counterexample: calculateSNR of src/unnamed/part_000 on the
equal-length non-empty pair consisting of the one-sample signals 1 and 2
returns a strictly negative value, so the SNR operation of the repository
is not floored at 0 on every pair. -/
theorem calculateSNR_can_be_negative : calculateSNRp0 [1] [2] < 0 := by
  have h1 : calculateSNRp0 [1] [2] = 10 * Real.logb 10 (1 / 4) := by
    simp only [calculateSNRp0, List.map, List.sum_cons, List.sum_nil, List.length_cons,
      List.length_nil]
    norm_num
  rw [h1]
  have h2 : Real.logb 10 (1 / 4) < 0 :=
    Real.logb_neg (by norm_num) (by norm_num) (by norm_num)
  linarith

/-- Claim C3, amended: estimateSNR of src/lib/signalWorker.ts is
non-negative for every pair of equal-length non-empty signals, its result
being floored at 0 through the final max (part_000's calculateSNR, in
contrast, only returns 0 when the noise power is not positive and can be
negative when the power ratio lies strictly between 0 and 1). -/
theorem estimateSNR_nonneg (raw cleaned : List ℝ)
    (h1 : raw.length = cleaned.length) (h2 : raw ≠ []) :
    0 ≤ estimateSNR raw cleaned :=
  le_max_left 0 _

/-- Witness for the amended claim C3 at a concrete pair. -/
theorem estimateSNR_nonneg_witness : 0 ≤ estimateSNR [1, 2] [1, 2] :=
  estimateSNR_nonneg [1, 2] [1, 2] rfl (by simp)

/-- Claim C4: the validity verdict is exactly the conjunction of the three
threshold tests, and on the quoted instances it evaluates to true
respectively false. -/
theorem validSegment_characterization :
    (∀ c m s : ℝ, validSegment c m s ↔ (c < 5 ∧ m < 20 ∧ s > 5)) ∧
      validSegment 2 5 10 ∧ ¬ validSegment 10 5 10 := by
  refine ⟨fun c m s => Iff.rfl, ?_, ?_⟩
  · refine ⟨by norm_num, by norm_num, by norm_num⟩
  · intro h
    have := h.1
    norm_num at this

/-- Claim C10: on every non-empty signal with zero population standard
deviation, removeOutliers is the identity for every threshold: all
samples already equal the mean, so the degenerate z-score never triggers a
replacement and the division by a zero standard deviation cannot surface
at the interface. -/
theorem removeOutliers_constant_unchanged (s : List ℝ) (t : ℝ)
    (h1 : s ≠ []) (h2 : pstd s = 0) : removeOutliers s t = s := by
  have hall := pstd_zero_all_mean s h1 h2
  have hmap : ∀ v ∈ s,
      (if |(v - pmean s) / pstd s| > t then pmean s else v) = v := by
    intro v hv
    have hvm : v = pmean s := hall v hv
    split
    · exact hvm.symm
    · rfl
  calc removeOutliers s t
      = s.map id := List.map_congr_left hmap
    _ = s := List.map_id s

/-- Witness for claim C10 at a concrete constant signal. -/
theorem removeOutliers_constant_unchanged_witness :
    removeOutliers [5, 5, 5] 3 = [5, 5, 5] := by
  have hstd : pstd [5, 5, 5] = 0 := by
    have hm : pmean [5, 5, 5] = 5 := by
      simp [pmean]
      norm_num
    have hv : pvariance [5, 5, 5] = 0 := by
      simp [pvariance, hm]
    rw [pstd, hv, Real.sqrt_zero]
  exact removeOutliers_constant_unchanged [5, 5, 5] 3 (by simp) hstd

/-- Claim C2, counterexample: designButterworthFilter of
src/lib/signalWorker.ts returns concrete coefficient vectors for the
invalid specification with negative lowCutoff, instead of failing; the
validation described by the claim exists only in
ButterworthFilter.computeCoefficients of src/unnamed/part_000. -/
theorem designButterworthFilter_accepts_invalid :
    designButterworthFilter (-1) 5 30 2 = ([0.2, 0.4, 0.2], [1.0, -0.8, 0.36]) ∧
      (-1 : ℝ) ≤ 0 := by
  constructor
  · simp [designButterworthFilter]
  · norm_num

/-- Claim C2, amended: with a positive sampling rate, the coefficient
computation of ButterworthFilter in src/unnamed/part_000 rejects every
specification with lowCutoff at most 0, or highCutoff at least the
Nyquist frequency, or misordered cutoffs, returning no coefficient
vectors; designButterworthFilter in src/lib/signalWorker.ts performs no
such validation. -/
theorem computeCoefficients_rejects_invalid (fs low high : ℝ) (hfs : 0 < fs)
    (h : low ≤ 0 ∨ fs / 2 ≤ high ∨ high ≤ low) :
    computeCoefficientsP0 fs low high = none := by
  have hhalf : 0 < fs / 2 := by linarith
  have hcond : low / (fs / 2) ≤ 0 ∨ 1 ≤ high / (fs / 2) ∨
      high / (fs / 2) ≤ low / (fs / 2) := by
    rcases h with h | h | h
    · exact Or.inl (div_nonpos_iff.mpr (Or.inr ⟨h, hhalf.le⟩))
    · exact Or.inr (Or.inl ((one_le_div hhalf).mpr h))
    · exact Or.inr (Or.inr ((div_le_div_iff_of_pos_right hhalf).mpr h))
  simp only [computeCoefficientsP0, if_pos hcond]

/-- Witness for the amended claim C2 at a concrete invalid
specification. -/
theorem computeCoefficients_rejects_invalid_witness :
    computeCoefficientsP0 30 (-1) 5 = none :=
  computeCoefficients_rejects_invalid 30 (-1) 5 (by norm_num) (Or.inl (by norm_num))

/-- Value of getD on a mapped index range, used to pull the residual body
out of the list representation. -/
lemma getD_map_range (f : ℕ → ℝ) (n i : ℕ) (h : i < n) :
    ((List.range n).map f).getD i 0 = f i := by
  rw [List.getD_eq_getElem?_getD, List.getElem?_map, List.getElem?_range h]
  rfl

lemma sX_closed (n : ℕ) : sX n = (n : ℝ) * ((n : ℝ) - 1) / 2 := by
  induction n with
  | zero => simp [sX]
  | succ n ih =>
    rw [sX, Finset.sum_range_succ, ← sX, ih]
    push_cast
    ring

lemma sX2_closed (n : ℕ) :
    sX2 n = (n : ℝ) * ((n : ℝ) - 1) * (2 * (n : ℝ) - 1) / 6 := by
  induction n with
  | zero => simp [sX2]
  | succ n ih =>
    rw [sX2, Finset.sum_range_succ, ← sX2, ih]
    push_cast
    ring

lemma detrend_denom_pos (n : ℕ) (h : 2 ≤ n) :
    0 < (n : ℝ) * sX2 n - sX n * sX n := by
  have hn : (2 : ℝ) ≤ (n : ℝ) := by exact_mod_cast h
  rw [sX_closed, sX2_closed]
  nlinarith [sq_nonneg ((n : ℝ) - 2), sq_nonneg ((n : ℝ))]

lemma detrend_length (s : List ℝ) : (detrend s).length = s.length := by
  rw [detrend]
  split
  · rfl
  · simp

lemma detrend_eq_map (s : List ℝ) (h : 2 ≤ s.length) :
    detrend s = (List.range s.length).map
      (fun i => s.getD i 0 - (fitSlope s * (i : ℝ) + fitIntercept s)) := by
  rw [detrend, if_neg (by omega)]

lemma sY_detrend (s : List ℝ) (h : 2 ≤ s.length) :
    sY (detrend s) =
      sY s - fitSlope s * sX s.length - (s.length : ℝ) * fitIntercept s := by
  simp only [sY]
  rw [detrend_eq_map s h, List.length_map, List.length_range]
  rw [Finset.sum_congr rfl
    (fun i hi => getD_map_range _ _ i (Finset.mem_range.1 hi))]
  simp only [sY, sX]
  rw [Finset.sum_sub_distrib, Finset.sum_add_distrib, ← Finset.mul_sum,
    Finset.sum_const, Finset.card_range, nsmul_eq_mul]
  ring

lemma sXY_detrend (s : List ℝ) (h : 2 ≤ s.length) :
    sXY (detrend s) =
      sXY s - fitSlope s * sX2 s.length - fitIntercept s * sX s.length := by
  simp only [sXY]
  rw [detrend_eq_map s h, List.length_map, List.length_range]
  rw [Finset.sum_congr rfl
    (fun i hi => by rw [getD_map_range _ _ i (Finset.mem_range.1 hi)])]
  have hterm : ∀ i ∈ Finset.range s.length,
      (i : ℝ) * (s.getD i 0 - (fitSlope s * (i : ℝ) + fitIntercept s)) =
        (i : ℝ) * s.getD i 0 - fitSlope s * ((i : ℝ) * (i : ℝ)) -
          fitIntercept s * (i : ℝ) := by
    intro i _
    ring
  rw [Finset.sum_congr rfl hterm]
  simp only [sXY, sX2, sX]
  rw [Finset.sum_sub_distrib, Finset.sum_sub_distrib, ← Finset.mul_sum,
    ← Finset.mul_sum]

lemma sY_detrend_zero (s : List ℝ) (h : 2 ≤ s.length) : sY (detrend s) = 0 := by
  have hn : ((s.length : ℝ)) ≠ 0 := by
    have : 0 < s.length := by omega
    positivity
  rw [sY_detrend s h]
  simp only [fitIntercept]
  field_simp

lemma sXY_detrend_zero (s : List ℝ) (h : 2 ≤ s.length) : sXY (detrend s) = 0 := by
  have hD := detrend_denom_pos s.length h
  have hDne : ((s.length : ℝ)) * sX2 s.length - sX s.length * sX s.length ≠ 0 :=
    ne_of_gt hD
  have hn : ((s.length : ℝ)) ≠ 0 := by
    have : 0 < s.length := by omega
    positivity
  rw [sXY_detrend s h]
  simp only [fitIntercept, fitSlope]
  field_simp
  ring

/-- Claim C6: for every sequence of length at least two, the residual
returned by detrend has a least-squares linear fit with slope and
intercept exactly zero, and shorter sequences come back unchanged. -/
theorem detrend_residual_zero_fit (s : List ℝ) :
    (2 ≤ s.length → fitSlope (detrend s) = 0 ∧ fitIntercept (detrend s) = 0) ∧
      (s.length < 2 → detrend s = s) := by
  constructor
  · intro h
    have hslope : fitSlope (detrend s) = 0 := by
      simp only [fitSlope]
      rw [detrend_length, sY_detrend_zero s h, sXY_detrend_zero s h]
      simp
    refine ⟨hslope, ?_⟩
    simp only [fitIntercept]
    rw [detrend_length, sY_detrend_zero s h, hslope]
    simp
  · intro h
    rw [detrend, if_pos h]

/-- Witness for claim C6 at a concrete four-sample sequence. -/
theorem detrend_residual_zero_fit_witness :
    fitSlope (detrend [1, 0, 0, 1]) = 0 :=
  ((detrend_residual_zero_fit [1, 0, 0, 1]).1 (by norm_num)).1

/-- Full characterization of the doubling loop of computeFFT: starting
from a positive power of two it reaches the least power of two that is at
least the target length. -/
lemma growPow2_spec (k : ℕ) :
    ∀ n N, n - N ≤ k → 0 < N → (∃ a, N = 2 ^ a) →
      n ≤ growPow2 n N ∧ N ≤ growPow2 n N ∧ (∃ b, growPow2 n N = 2 ^ b) ∧
        (∀ m, n ≤ 2 ^ m → N ≤ 2 ^ m → growPow2 n N ≤ 2 ^ m) := by
  induction k with
  | zero =>
    intro n N hk hN hpow
    rw [growPow2, dif_neg (by omega)]
    exact ⟨by omega, le_refl N, hpow, fun m _ hm => hm⟩
  | succ k ih =>
    intro n N hk hN hpow
    by_cases hc : 0 < N ∧ N < n
    · rw [growPow2, dif_pos hc]
      obtain ⟨a, rfl⟩ := hpow
      have h2N : 2 * 2 ^ a = 2 ^ (a + 1) := by ring
      have hrec := ih n (2 * 2 ^ a) (by omega) (by positivity) ⟨a + 1, h2N⟩
      refine ⟨hrec.1, le_trans (by omega) hrec.2.1, hrec.2.2.1, ?_⟩
      intro m hm hNm
      apply hrec.2.2.2 m hm
      have ham : a < m :=
        (Nat.pow_lt_pow_iff_right (by norm_num)).1 (lt_of_lt_of_le hc.2 hm)
      calc 2 * 2 ^ a = 2 ^ (a + 1) := h2N
        _ ≤ 2 ^ m := Nat.pow_le_pow_right (by norm_num) (by omega)
    · rw [growPow2, dif_neg hc]
      exact ⟨by omega, le_refl N, hpow, fun m _ hm => hm⟩

/-- Claim C9: for every signal of length at least two, computeFFT of
src/lib/signalWorker.ts succeeds and returns a magnitude sequence of
length half the least power of two at least the input length, with every
element non-negative; for lengths 0 and 1 the padded length is 1, the
output array length would be one half, and the operation fails instead of
returning a spectrum. -/
theorem computeFFT_totality (s : List ℝ) :
    (2 ≤ s.length → ∃ l, computeFFT s = some l ∧
        2 * l.length = growPow2 s.length 1 ∧
        s.length ≤ growPow2 s.length 1 ∧
        (∃ b, growPow2 s.length 1 = 2 ^ b) ∧
        (∀ m, s.length ≤ 2 ^ m → growPow2 s.length 1 ≤ 2 ^ m) ∧
        (∀ x ∈ l, 0 ≤ x)) ∧
      (s.length ≤ 1 → computeFFT s = none) := by
  constructor
  · intro h
    obtain ⟨hge, h1le, ⟨b, hb⟩, hmin⟩ :=
      growPow2_spec s.length s.length 1 (by omega) (by norm_num) ⟨0, rfl⟩
    have hN2 : 2 ≤ growPow2 s.length 1 := le_trans h hge
    have hbpos : b ≠ 0 := by
      intro h0
      rw [h0] at hb
      simp at hb
      omega
    have heven : growPow2 s.length 1 % 2 = 0 := by
      rw [hb]
      obtain ⟨c, rfl⟩ := Nat.exists_eq_succ_of_ne_zero hbpos
      simp [Nat.pow_succ, Nat.mul_mod_left]
    refine ⟨(List.range (growPow2 s.length 1 / 2)).map (dftMag s (growPow2 s.length 1)),
      ?_, ?_, hge, ⟨b, hb⟩, fun m hm => hmin m hm (le_trans (by omega) hm), ?_⟩
    · simp only [computeFFT]
      rw [if_pos heven]
    · rw [List.length_map, List.length_range]
      omega
    · intro x hx
      rcases List.mem_map.1 hx with ⟨k, _, rfl⟩
      simp only [dftMag]
      exact div_nonneg (Real.sqrt_nonneg _) (by positivity)
  · intro h
    have hN : growPow2 s.length 1 = 1 := by
      rw [growPow2, dif_neg (by omega)]
    simp only [computeFFT, hN]
    norm_num

/-- Witness for claim C9: the failing branch at a concrete one-sample
signal. -/
theorem computeFFT_totality_witness : computeFFT [(1 : ℝ)] = none :=
  (computeFFT_totality [1]).2 (by simp)

lemma cos_neg_nat_pi (k : ℕ) : Real.cos (-((k : ℝ) * π)) = (-1) ^ k := by
  rw [Real.cos_neg]
  simpa using Real.cos_nat_mul_pi_sub 0 k

lemma sin_neg_nat_pi (k : ℕ) : Real.sin (-((k : ℝ) * π)) = 0 := by
  rw [Real.sin_neg, Real.sin_nat_mul_pi, neg_zero]

/-- Closed form for every bin of the eight-point direct transform of the
impulse-pair signal: bins of even index carry one quarter, bins of odd
index vanish. -/
lemma dftMag_s8 (k : ℕ) :
    dftMag [1, 0, 0, 0, 1, 0, 0, 0] 8 k = (1 + (-1 : ℝ) ^ k) / 8 := by
  have hre : (∑ t ∈ Finset.range 8, ([1, 0, 0, 0, 1, 0, 0, 0] : List ℝ).getD t 0 *
      Real.cos (-2 * π * (k : ℝ) * (t : ℝ) / ((8 : ℕ) : ℝ))) = 1 + (-1) ^ k := by
    norm_num [Finset.sum_range_succ, List.getD]
    rw [show -(2 * π * (k : ℝ) * 4) / 8 = -((k : ℝ) * π) from by ring, cos_neg_nat_pi]
  have him : (∑ t ∈ Finset.range 8, ([1, 0, 0, 0, 1, 0, 0, 0] : List ℝ).getD t 0 *
      Real.sin (-2 * π * (k : ℝ) * (t : ℝ) / ((8 : ℕ) : ℝ))) = 0 := by
    norm_num [Finset.sum_range_succ, List.getD]
    rw [show -(2 * π * (k : ℝ) * 4) / 8 = -((k : ℝ) * π) from by ring, sin_neg_nat_pi]
  have hpos : (0 : ℝ) ≤ 1 + (-1) ^ k := by
    rcases Nat.even_or_odd k with hk | hk
    · rw [hk.neg_one_pow]
      norm_num
    · rw [hk.neg_one_pow]
      norm_num
  simp only [dftMag]
  rw [hre, him, mul_zero, add_zero, Real.sqrt_mul_self hpos]
  norm_num

lemma naiveFFT_s8 :
    naiveFFT [1, 0, 0, 0, 1, 0, 0, 0] =
      [1 / 4, 0, 1 / 4, 0, 1 / 4, 0, 1 / 4, 0] := by
  rw [naiveFFT, show ([1, 0, 0, 0, 1, 0, 0, 0] : List ℝ).length = 8 from rfl,
    show List.range 8 = [0, 1, 2, 3, 4, 5, 6, 7] from rfl]
  simp only [List.map_cons, List.map_nil]
  norm_num [dftMag_s8]

lemma fftp0_one : computeFFTp0 [1] = [1] := by
  rw [computeFFTp0, dif_pos (by norm_num)]

lemma fftp0_zero1 : computeFFTp0 [0] = [0] := by
  rw [computeFFTp0, dif_pos (by norm_num)]

lemma fftp0_11 : computeFFTp0 [1, 1] = [2, 0] := by
  rw [computeFFTp0, dif_neg (by norm_num), dif_neg (by norm_num)]
  rw [show evens [(1 : ℝ), 1] = [1] from rfl, show odds [(1 : ℝ), 1] = [1] from rfl]
  rw [fftp0_one]
  norm_num [List.getD, show List.range 2 = [0, 1] from rfl]

lemma fftp0_00 : computeFFTp0 [0, 0] = [0, 0] := by
  rw [computeFFTp0, dif_neg (by norm_num), dif_neg (by norm_num)]
  rw [show evens [(0 : ℝ), 0] = [0] from rfl, show odds [(0 : ℝ), 0] = [0] from rfl]
  rw [fftp0_zero1]
  norm_num [List.getD, show List.range 2 = [0, 1] from rfl]

lemma fftp0_1010 : computeFFTp0 [1, 0, 1, 0] = [2, 0, 2, 0] := by
  rw [computeFFTp0, dif_neg (by norm_num), dif_neg (by norm_num)]
  rw [show evens [(1 : ℝ), 0, 1, 0] = [1, 1] from rfl,
    show odds [(1 : ℝ), 0, 1, 0] = [0, 0] from rfl]
  rw [fftp0_11, fftp0_00]
  norm_num [List.getD, show List.range 4 = [0, 1, 2, 3] from rfl]

lemma fftp0_0000 : computeFFTp0 [0, 0, 0, 0] = [0, 0, 0, 0] := by
  rw [computeFFTp0, dif_neg (by norm_num), dif_neg (by norm_num)]
  rw [show evens [(0 : ℝ), 0, 0, 0] = [0, 0] from rfl,
    show odds [(0 : ℝ), 0, 0, 0] = [0, 0] from rfl]
  rw [fftp0_00]
  norm_num [List.getD, show List.range 4 = [0, 1, 2, 3] from rfl]

lemma fftp0_s8 :
    computeFFTp0 [1, 0, 0, 0, 1, 0, 0, 0] = [2, 0, 2, 0, 2, 0, 2, 0] := by
  rw [computeFFTp0, dif_neg (by norm_num), dif_neg (by norm_num)]
  rw [show evens [(1 : ℝ), 0, 0, 0, 1, 0, 0, 0] = [1, 0, 1, 0] from rfl,
    show odds [(1 : ℝ), 0, 0, 0, 1, 0, 0, 0] = [0, 0, 0, 0] from rfl]
  rw [fftp0_1010, fftp0_0000]
  norm_num [List.getD, show List.range 8 = [0, 1, 2, 3, 4, 5, 6, 7] from rfl]

lemma growPow2_8 : growPow2 8 1 = 8 := by
  rw [growPow2, dif_pos (by norm_num), growPow2, dif_pos (by norm_num),
    growPow2, dif_pos (by norm_num), growPow2, dif_neg (by norm_num)]

lemma computeFFT_s8 :
    computeFFT [1, 0, 0, 0, 1, 0, 0, 0] = some [1 / 4, 0, 1 / 4, 0] := by
  simp only [computeFFT]
  rw [show ([1, 0, 0, 0, 1, 0, 0, 0] : List ℝ).length = 8 from rfl, growPow2_8,
    if_pos (by norm_num : (8 : ℕ) % 2 = 0)]
  rw [show (8 : ℕ) / 2 = 4 from rfl, show List.range 4 = [0, 1, 2, 3] from rfl]
  simp only [List.map_cons, List.map_nil]
  norm_num [dftMag_s8]

/-- Claim C5, counterexample: on the length-8 impulse-pair signal the
recursive power-of-two path of src/unnamed/part_000 yields 2 at bin 0
while the direct summation path yields one quarter, so the two embedded
transforms do not match within any floating tolerance. -/
theorem fft_paths_disagree :
    (computeFFTp0 [1, 0, 0, 0, 1, 0, 0, 0]).getD 0 0 = 2 ∧
      (naiveFFT [1, 0, 0, 0, 1, 0, 0, 0]).getD 0 0 = 1 / 4 ∧
      (2 : ℝ) ≠ 1 / 4 := by
  refine ⟨by rw [fftp0_s8]; rfl, by rw [naiveFFT_s8]; rfl, by norm_num⟩

/-- Claim C5, amended: on the length-8 impulse-pair signal the recursive
power-of-two path of src/unnamed/part_000 agrees with the direct
summation path only up to the omitted magnitude normalization, every bin
being exactly 8 times the direct magnitude; the padded magnitude
transform of src/lib/signalWorker.ts does agree exactly with the first
half of the direct spectrum. -/
theorem fft_paths_agree_up_to_scale :
    computeFFTp0 [1, 0, 0, 0, 1, 0, 0, 0] =
      (naiveFFT [1, 0, 0, 0, 1, 0, 0, 0]).map (fun x => 8 * x) ∧
      computeFFT [1, 0, 0, 0, 1, 0, 0, 0] =
        some ((naiveFFT [1, 0, 0, 0, 1, 0, 0, 0]).take 4) := by
  rw [naiveFFT_s8, fftp0_s8, computeFFT_s8]
  norm_num

lemma iirAux_length (b a s : List ℝ) (k : ℕ) : (iirAux b a s k).length = k := by
  induction k with
  | zero => rfl
  | succ k ih => simp [iirAux, ih]

lemma applyIIRFilter_length (s b a : List ℝ) :
    (applyIIRFilter s b a).length = s.length :=
  iirAux_length b a s s.length

lemma removeOutliers_length (s : List ℝ) (t : ℝ) :
    (removeOutliers s t).length = s.length := by
  simp [removeOutliers]

lemma foldl_min_le_init (l : List ℝ) (a : ℝ) : l.foldl min a ≤ a := by
  induction l generalizing a with
  | nil => simp
  | cons x xs ih =>
    simpa using le_trans (ih (min a x)) (min_le_left a x)

lemma foldl_min_le_mem (l : List ℝ) (a x : ℝ) (h : x ∈ l) : l.foldl min a ≤ x := by
  induction l generalizing a with
  | nil => simp at h
  | cons y ys ih =>
    rcases List.mem_cons.1 h with rfl | h
    · simpa using le_trans (foldl_min_le_init ys (min a x)) (min_le_right a x)
    · simpa using ih (min a y) h

lemma listMin_le (l : List ℝ) (x : ℝ) (h : x ∈ l) : listMin l ≤ x := by
  cases l with
  | nil => simp at h
  | cons y ys =>
    rcases List.mem_cons.1 h with rfl | h
    · exact foldl_min_le_init ys x
    · exact foldl_min_le_mem ys y x h

lemma init_le_foldl_max (l : List ℝ) (a : ℝ) : a ≤ l.foldl max a := by
  induction l generalizing a with
  | nil => simp
  | cons x xs ih =>
    simpa using le_trans (le_max_left a x) (ih (max a x))

lemma mem_le_foldl_max (l : List ℝ) (a x : ℝ) (h : x ∈ l) : x ≤ l.foldl max a := by
  induction l generalizing a with
  | nil => simp at h
  | cons y ys ih =>
    rcases List.mem_cons.1 h with rfl | h
    · simpa using le_trans (le_max_right a x) (init_le_foldl_max ys (max a x))
    · simpa using ih (max a y) h

lemma le_listMax (l : List ℝ) (x : ℝ) (h : x ∈ l) : x ≤ listMax l := by
  cases l with
  | nil => simp at h
  | cons y ys =>
    rcases List.mem_cons.1 h with rfl | h
    · exact init_le_foldl_max ys x
    · exact mem_le_foldl_max ys y x h

lemma normalize255_mem_bounds (l : List ℝ) (x : ℝ) (hx : x ∈ normalize255 l) :
    0 ≤ x ∧ x ≤ 255 := by
  simp only [normalize255] at hx
  rcases List.mem_map.1 hx with ⟨v, hv, rfl⟩
  have hmn : listMin l ≤ v := listMin_le l v hv
  have hmx : v ≤ listMax l := le_listMax l v hv
  by_cases h0 : listMax l - listMin l = 0
  · have hveq : v = listMin l := le_antisymm (by linarith) hmn
    rw [if_pos h0, hveq]
    norm_num
  · have hlt : 0 < listMax l - listMin l :=
      lt_of_le_of_ne (by linarith) (Ne.symm h0)
    rw [if_neg h0]
    constructor
    · have h1 : 0 ≤ (v - listMin l) / (listMax l - listMin l) :=
        div_nonneg (by linarith) hlt.le
      nlinarith
    · have h1 : (v - listMin l) / (listMax l - listMin l) ≤ 1 :=
        (div_le_one hlt).mpr (by linarith)
      nlinarith

/-- Claim C8: for every non-empty raw signal, processSignal of
src/lib/signalWorker.ts returns a cleaned signal of the same length whose
samples all lie in the display range 0 to 255, and that cleaned signal is
exactly the min-max normalization (range replaced by 1 when zero) of the
once-filtered, outlier-suppressed, detrended input. -/
theorem processSignal_cleaned_bounds (raw : List ℝ) (fs low high : ℝ) (ord : ℕ)
    (h : raw ≠ []) :
    (processSignal raw fs low high ord).cleanedSignal.length = raw.length ∧
      (∀ x ∈ (processSignal raw fs low high ord).cleanedSignal, 0 ≤ x ∧ x ≤ 255) ∧
      (processSignal raw fs low high ord).cleanedSignal =
        normalize255 (applyIIRFilter (removeOutliers (detrend raw) 3)
          (designButterworthFilter low high fs ord).1
          (designButterworthFilter low high fs ord).2) := by
  have hstruct : (processSignal raw fs low high ord).cleanedSignal =
      normalize255 (applyIIRFilter (removeOutliers (detrend raw) 3)
        (designButterworthFilter low high fs ord).1
        (designButterworthFilter low high fs ord).2) := rfl
  refine ⟨?_, ?_, hstruct⟩
  · rw [hstruct]
    simp only [normalize255, List.length_map, applyIIRFilter_length,
      removeOutliers_length, detrend_length]
  · intro x hx
    rw [hstruct] at hx
    exact normalize255_mem_bounds _ x hx

/-- Witness for claim C8 at a concrete payload. -/
theorem processSignal_cleaned_bounds_witness :
    (processSignal [1, 0, 0, 1] 8 1 3 1).cleanedSignal.length = 4 := by
  simpa using (processSignal_cleaned_bounds [1, 0, 0, 1] 8 1 3 1 (by simp)).1

lemma detrend_c7 : detrend [1, 0, 0, 1] = [1 / 2, -(1 / 2), -(1 / 2), 1 / 2] := by
  have hsY : sY [1, 0, 0, 1] = 2 := by
    norm_num [sY, Finset.sum_range_succ, List.getD]
  have hsXY : sXY [1, 0, 0, 1] = 3 := by
    norm_num [sXY, Finset.sum_range_succ, List.getD]
  have hsX : sX 4 = 6 := by
    norm_num [sX, Finset.sum_range_succ]
  have hsX2 : sX2 4 = 14 := by
    norm_num [sX2, Finset.sum_range_succ]
  have hslope : fitSlope [1, 0, 0, 1] = 0 := by
    simp only [fitSlope, show ([1, 0, 0, 1] : List ℝ).length = 4 from rfl,
      hsY, hsXY, hsX, hsX2]
    norm_num
  have hicept : fitIntercept [1, 0, 0, 1] = 1 / 2 := by
    simp only [fitIntercept, show ([1, 0, 0, 1] : List ℝ).length = 4 from rfl,
      hsY, hsX, hslope]
    norm_num
  rw [detrend, if_neg (by norm_num),
    show ([1, 0, 0, 1] : List ℝ).length = 4 from rfl,
    show List.range 4 = [0, 1, 2, 3] from rfl]
  simp only [List.map_cons, List.map_nil, hslope, hicept]
  norm_num [List.getD]

lemma removeOutliers_c7 :
    removeOutliers [1 / 2, -(1 / 2), -(1 / 2), 1 / 2] 3 =
      [1 / 2, -(1 / 2), -(1 / 2), 1 / 2] := by
  have hm : pmean [1 / 2, -(1 / 2), -(1 / 2), 1 / 2] = 0 := by
    simp only [pmean, List.sum_cons, List.sum_nil, List.length_cons, List.length_nil]
    norm_num
  have hv : pvariance [1 / 2, -(1 / 2), -(1 / 2), 1 / 2] = 1 / 4 := by
    simp only [pvariance, hm, List.map, List.sum_cons, List.sum_nil,
      List.length_cons, List.length_nil]
    norm_num
  have hs : pstd [1 / 2, -(1 / 2), -(1 / 2), 1 / 2] = 1 / 2 := by
    rw [pstd, hv, show (1 / 4 : ℝ) = (1 / 2) ^ 2 from by norm_num,
      Real.sqrt_sq (by norm_num)]
  simp only [removeOutliers, hm, hs, List.map]
  norm_num [abs_le]

lemma design_c7_b : (designButterworthFilter 1 3 8 1).1 = [1 / 2, 1 / 2] := by
  simp only [designButterworthFilter]
  norm_num

lemma design_c7_a : (designButterworthFilter 1 3 8 1).2 = [1, -(1 / 2)] := by
  simp only [designButterworthFilter]
  norm_num

lemma iir_c7_pass1 :
    applyIIRFilter [1 / 2, -(1 / 2), -(1 / 2), 1 / 2] [1 / 2, 1 / 2] [1, -(1 / 2)] =
      [1 / 4, 1 / 8, -(7 / 16), -(7 / 32)] := by
  simp only [applyIIRFilter,
    show ([1 / 2, -(1 / 2), -(1 / 2), 1 / 2] : List ℝ).length = 4 from rfl]
  norm_num [iirAux, iirOut, Finset.sum_range_succ, Finset.sum_Ico_succ_top,
    Finset.Ico_self, List.getD]

lemma iir_c7_pass2 :
    applyIIRFilter [1 / 4, 1 / 8, -(7 / 16), -(7 / 32)] [1 / 2, 1 / 2] [1, -(1 / 2)] =
      [1 / 8, 1 / 4, -(1 / 32), -(11 / 32)] := by
  simp only [applyIIRFilter,
    show ([1 / 4, 1 / 8, -(7 / 16), -(7 / 32)] : List ℝ).length = 4 from rfl]
  norm_num [iirAux, iirOut, Finset.sum_range_succ, Finset.sum_Ico_succ_top,
    Finset.Ico_self, List.getD]

lemma norm_c7_pass1 :
    normalize255 [1 / 4, 1 / 8, -(7 / 16), -(7 / 32)] =
      [255, 2295 / 11, 0, 1785 / 22] := by
  simp only [normalize255, listMin, listMax, List.foldl, List.map]
  norm_num [min_def, max_def]

lemma norm_c7_pass2 :
    normalize255 [1 / 8, 1 / 4, -(1 / 32), -(11 / 32)] =
      [3825 / 19, 255, 2550 / 19, 0] := by
  simp only [normalize255, listMin, listMax, List.foldl, List.map]
  norm_num [min_def, max_def]

/-- Claim C7, counterexample: on the concrete payload with raw signal
1,0,0,1 at sampling rate 8, cutoffs 1 and 3 and order 1, processSignal of
src/lib/signalWorker.ts produces a cleaned second sample of 2295 / 11,
while the pipeline described by the claim, with the designed filter
cascaded twice, would produce 255 there: the embedded processSignal
applies the filter only once and runs the outlier pass before, not after,
filtering. -/
theorem processSignal_single_pass :
    (processSignal [1, 0, 0, 1] 8 1 3 1).cleanedSignal.getD 1 0 = 2295 / 11 ∧
      (processSignalTwoPass [1, 0, 0, 1] 8 1 3 1).cleanedSignal.getD 1 0 = 255 ∧
      (2295 / 11 : ℝ) ≠ 255 := by
  refine ⟨?_, ?_, by norm_num⟩
  · have hstruct : (processSignal [1, 0, 0, 1] 8 1 3 1).cleanedSignal =
        normalize255 (applyIIRFilter (removeOutliers (detrend [1, 0, 0, 1]) 3)
          (designButterworthFilter 1 3 8 1).1
          (designButterworthFilter 1 3 8 1).2) := rfl
    rw [hstruct, detrend_c7, removeOutliers_c7, design_c7_b, design_c7_a,
      iir_c7_pass1, norm_c7_pass1]
    rfl
  · have hstruct : (processSignalTwoPass [1, 0, 0, 1] 8 1 3 1).cleanedSignal =
        normalize255 (applyIIRFilter
          (applyIIRFilter (removeOutliers (detrend [1, 0, 0, 1]) 3)
            (designButterworthFilter 1 3 8 1).1
            (designButterworthFilter 1 3 8 1).2)
          (designButterworthFilter 1 3 8 1).1
          (designButterworthFilter 1 3 8 1).2) := rfl
    rw [hstruct, detrend_c7, removeOutliers_c7, design_c7_b, design_c7_a,
      iir_c7_pass1, iir_c7_pass2, norm_c7_pass2]
    rfl

/-- Claim C7, amended: the two-pass cascade before the clip-to-mean
outlier pass and quality assessment is the pipeline of processSignal in
src/unnamed/part_000, whose butterworth output applies the same
coefficient pair through two fresh filter instances in sequence before
clipping; processSignal in src/lib/signalWorker.ts instead applies the
designed filter exactly once, after its outlier pass. -/
theorem processSignal_pass_structure :
    (∀ (raw : List ℝ) (fs low high : ℝ) (ord : ℕ) (b a : List ℝ),
        computeCoefficientsP0 fs low high = some (b, a) →
        (processSignalP0 raw fs low high ord).map (fun r => r.butterworth) =
          some (clipToMeanP0 (bfilterAll b a
            (bfilterAll b a (detrendP0 raw) bfInit) bfInit))) ∧
      (∀ (raw : List ℝ) (fs low high : ℝ) (ord : ℕ),
        (processSignal raw fs low high ord).cleanedSignal =
          normalize255 (applyIIRFilter (removeOutliers (detrend raw) 3)
            (designButterworthFilter low high fs ord).1
            (designButterworthFilter low high fs ord).2)) := by
  constructor
  · intro raw fs low high ord b a h
    simp only [processSignalP0, h]
    rfl
  · intro raw fs low high ord
    rfl

/-- Witness for the amended claim C7: at sampling rate 8 with cutoffs 1
and 3 the part_000 design degenerates to the concrete rational
coefficient pair below, and the butterworth field is the double cascade
followed by the clip-to-mean pass. -/
theorem processSignal_pass_structure_witness :
    (processSignalP0 [1, 0, 0, 1] 8 1 3 2).map (fun r => r.butterworth) =
      some (clipToMeanP0 (bfilterAll [1, 0, -1] [1, 0, 0]
        (bfilterAll [1, 0, -1] [1, 0, 0] (detrendP0 [1, 0, 0, 1]) bfInit) bfInit)) := by
  have h : computeCoefficientsP0 8 1 3 = some ([1, 0, -1], [1, 0, 0]) := by
    simp only [computeCoefficientsP0]
    rw [if_neg (by norm_num)]
    rw [show π * ((3 : ℝ) / ((8 : ℝ) / 2) - (1 : ℝ) / ((8 : ℝ) / 2)) / 2 = π / 4
      from by ring, Real.tan_pi_div_four]
    norm_num
  exact processSignal_pass_structure.1 [1, 0, 0, 1] 8 1 3 2 [1, 0, -1] [1, 0, 0] h

